import Mathlib

/-!
Verification of the logistic-regression example
(`src/examples/machine_learning/logistic_regression.cpp`).

Matrices are embedded as `Matrix (Fin m) (Fin n) ℝ`. The ArrayFire backend
operations that the example calls (whole-array reduction `sum`, row-wise
`max` with indices, `count`, `matmul`, `constant`) are not part of the
sources; they are modelled from the specification, which treats the array
backend as an external collaborator.
-/

namespace LogReg

/-- Modelled from the spec: the backend reduction `sum`, specified as
`sum_over_all_entries`, reducing a whole matrix to one scalar. -/
def afSum {a b : ℕ} (A : Matrix (Fin a) (Fin b) ℝ) : ℝ :=
  ∑ i, ∑ j, A i j

/-- Activation function, from the source: `1 / (1 + exp(-val))`,
applied element-wise. -/
noncomputable def sigmoid (z : ℝ) : ℝ :=
  1 / (1 + Real.exp (-z))

/-- `predict(X, Weights) = sigmoid(matmul(X, Weights))`, from the source.
The matrix product is the backend `matmul`, modelled from the spec as the
ordinary matrix product. -/
noncomputable def predict {m n k : ℕ} (X : Matrix (Fin m) (Fin n) ℝ)
    (Weights : Matrix (Fin n) (Fin k) ℝ) : Matrix (Fin m) (Fin k) ℝ :=
  (X * Weights).map sigmoid

/-- The regularization mask built in `cost`:
`lambdat = constant(lambda, Weights.dims()); lambdat(0, span) = 0;`. -/
def lambdat (n k : ℕ) (lambda : ℝ) : Matrix (Fin n) (Fin k) ℝ :=
  Matrix.of fun i _ => if (i : ℕ) = 0 then 0 else lambda

/-- The `cost` function of the source, returning the pair `(J, dJ)` that the
source passes through its two output parameters.  `m = Y.dims(0)` is the
number of samples.  Source:
`J = -sum(Y * log(H) + (1 - Y) * log(1 - H)) / m;`
`J = J + 0.5 * sum(lambdat * Weights * Weights) / m;`
`dJ = (matmul(X.T(), D) + lambdat * Weights) / m;` with `D = H - Y`. -/
noncomputable def cost {m n k : ℕ} (Weights : Matrix (Fin n) (Fin k) ℝ)
    (X : Matrix (Fin m) (Fin n) ℝ) (Y : Matrix (Fin m) (Fin k) ℝ)
    (lambda : ℝ) : ℝ × Matrix (Fin n) (Fin k) ℝ :=
  let lt := lambdat n k lambda
  let H := predict X Weights
  let J : ℝ :=
    -(afSum (Matrix.of fun i j =>
        Y i j * Real.log (H i j) + (1 - Y i j) * Real.log (1 - H i j))) / (m : ℝ)
      + 0.5 * afSum (Matrix.of fun i j => lt i j * Weights i j * Weights i j) / (m : ℝ)
  let D : Matrix (Fin m) (Fin k) ℝ := Matrix.of fun i j => H i j - Y i j
  let dJ : Matrix (Fin n) (Fin k) ℝ :=
    Matrix.of fun i j => ((X.transpose * D) i j + lt i j * Weights i j) / (m : ℝ)
  (J, dJ)

/-- The training loop of `train`, by fuel on the remaining iterations of
`for (int i = 0; i < maxiter; i++)`.  Besides the weights it returns the
number of `cost` evaluations performed, which instruments the control flow
of the source loop: every iteration first evaluates `cost`, breaks when
`J < 0.1` (the backend `alltrue` on the scalar loss is the identity), and
otherwise updates `Weights = Weights - alpha * dJ`. -/
noncomputable def trainLoop {m n k : ℕ} (X : Matrix (Fin m) (Fin n) ℝ)
    (Y : Matrix (Fin m) (Fin k) ℝ) (alpha lambda : ℝ) :
    ℕ → Matrix (Fin n) (Fin k) ℝ → Matrix (Fin n) (Fin k) ℝ × ℕ
  | 0, W => (W, 0)
  | fuel + 1, W =>
    let JdJ := cost W X Y lambda
    if JdJ.1 < 0.1 then (W, 1)
    else
      let r := trainLoop X Y alpha lambda fuel (W - alpha • JdJ.2)
      (r.1, r.2 + 1)

/-- `train` from the source: `Weights = constant(0, X.dims(1), Y.dims(1))`,
then the gradient-descent loop; the weights current when the loop ends are
returned.  `maxiter` is a C `int`, so the loop body runs `max(maxiter, 0)`
times. -/
noncomputable def train {m n k : ℕ} (X : Matrix (Fin m) (Fin n) ℝ)
    (Y : Matrix (Fin m) (Fin k) ℝ) (alpha lambda : ℝ) (maxiter : ℤ) :
    Matrix (Fin n) (Fin k) ℝ :=
  (trainLoop X Y alpha lambda maxiter.toNat (Matrix.of fun _ _ => (0 : ℝ))).1

/-- The number of `cost` evaluations that `train` performs, from the same
loop as `train`. -/
noncomputable def trainEvals {m n k : ℕ} (X : Matrix (Fin m) (Fin n) ℝ)
    (Y : Matrix (Fin m) (Fin k) ℝ) (alpha lambda : ℝ) (maxiter : ℤ) : ℕ :=
  (trainLoop X Y alpha lambda maxiter.toNat (Matrix.of fun _ _ => (0 : ℝ))).2

/-- Modelled from the spec: the backend row-wise `max(val, idx, A, 1)`
index output, specified in the spec as the per-row argmax with the lowest
index winning ties.  The fold keeps the current best on ties and scans
indices in increasing order, so the lowest maximal index is returned. -/
noncomputable def rowArgmax {k : ℕ} (row : Fin (k + 1) → ℝ) : Fin (k + 1) :=
  (List.finRange (k + 1)).foldl (fun best i => if row best < row i then i else best) 0

/-- The per-row label arrays `plabels` and `tlabels` of `accuracy`: the
index output of the backend row-wise `max` reduction. -/
noncomputable def labels {m k : ℕ} (A : Matrix (Fin (m + 1)) (Fin (k + 1)) ℝ) :
    Fin (m + 1) → Fin (k + 1) :=
  fun i => rowArgmax fun j => A i j

/-- `count<float>(plabels == tlabels)` of the source: the number of rows on
which the two argmax indices agree.  The backend `count` (number of nonzero
entries of the element-wise comparison) is modelled from the spec. -/
noncomputable def matchCount {m k : ℕ}
    (predicted target : Matrix (Fin (m + 1)) (Fin (k + 1)) ℝ) : ℕ :=
  (Finset.univ.filter fun i => labels predicted i = labels target i).card

/-- `accuracy` from the source:
`100 * count<float>(plabels == tlabels) / tlabels.elements()`, where
`tlabels.elements()` is the number of rows. -/
noncomputable def accuracy {m k : ℕ}
    (predicted target : Matrix (Fin (m + 1)) (Fin (k + 1)) ℝ) : ℝ :=
  100 * (matchCount predicted target : ℝ) / ((m + 1 : ℕ) : ℝ)

/-- The gradient exactly as the spec sentence writes it:
`dJ = (1/m) * (Xᵗ · D) + mask * W`, with the regularization term NOT
divided by `m`.  Kept separate from `cost` so the two can be compared. -/
noncomputable def spec_dJ {m n k : ℕ} (Weights : Matrix (Fin n) (Fin k) ℝ)
    (X : Matrix (Fin m) (Fin n) ℝ) (Y : Matrix (Fin m) (Fin k) ℝ)
    (lambda : ℝ) : Matrix (Fin n) (Fin k) ℝ :=
  Matrix.of fun i j =>
    (X.transpose * Matrix.of fun a b => predict X Weights a b - Y a b) i j / (m : ℝ)
      + lambdat n k lambda i j * Weights i j

/-- The trainer as the spec words it: start from the all-zero weight
matrix, repeat up to `max_iter` times, each iteration first computing
`(J, dJ) = cost_and_gradient(W, X, Y, lambda)`, stopping before any update
when `J < 0.1`, and otherwise updating `W` to `W - alpha * dJ`; the
current `W` is returned when the loop ends. -/
noncomputable def spec_trainAux {m n k : ℕ} (X : Matrix (Fin m) (Fin n) ℝ)
    (Y : Matrix (Fin m) (Fin k) ℝ) (alpha lambda : ℝ) :
    ℕ → Matrix (Fin n) (Fin k) ℝ → Matrix (Fin n) (Fin k) ℝ
  | 0, W => W
  | t + 1, W =>
    if (cost W X Y lambda).1 < 0.1 then W
    else spec_trainAux X Y alpha lambda t (W - alpha • (cost W X Y lambda).2)

/-- The spec-worded trainer entry point: all-zero initial weights of shape
`(X.cols × Y.cols)`, at most `max_iter` iterations. -/
noncomputable def spec_train {m n k : ℕ} (X : Matrix (Fin m) (Fin n) ℝ)
    (Y : Matrix (Fin m) (Fin k) ℝ) (alpha lambda : ℝ) (maxiter : ℤ) :
    Matrix (Fin n) (Fin k) ℝ :=
  spec_trainAux X Y alpha lambda maxiter.toNat 0

/-- Shared unfolding lemma: the gradient entry returned by `cost`, with the
matrix product and transpose expanded to an explicit sum. -/
theorem dJ_apply {m n k : ℕ} (Weights : Matrix (Fin n) (Fin k) ℝ)
    (X : Matrix (Fin m) (Fin n) ℝ) (Y : Matrix (Fin m) (Fin k) ℝ)
    (lambda : ℝ) (i : Fin n) (j : Fin k) :
    (cost Weights X Y lambda).2 i j =
      ((∑ l : Fin m, X l i * (predict X Weights l j - Y l j))
        + lambdat n k lambda i j * Weights i j) / (m : ℝ) := by
  simp [cost, Matrix.mul_apply, Matrix.transpose_apply]

/-- Shared unfolding lemma: the scalar loss returned by `cost`, with the
backend reduction expanded to sums over all entries. -/
theorem J_eq {m n k : ℕ} (Weights : Matrix (Fin n) (Fin k) ℝ)
    (X : Matrix (Fin m) (Fin n) ℝ) (Y : Matrix (Fin m) (Fin k) ℝ)
    (lambda : ℝ) :
    (cost Weights X Y lambda).1 =
      -(∑ i : Fin m, ∑ j : Fin k, (Y i j * Real.log (predict X Weights i j)
          + (1 - Y i j) * Real.log (1 - predict X Weights i j))) / (m : ℝ)
        + 0.5 * (∑ i : Fin n, ∑ j : Fin k,
            lambdat n k lambda i j * Weights i j * Weights i j) / (m : ℝ) := by
  simp [cost, afSum]

/-- C1 (amended): for every well-shaped input and every lambda, the
gradient returned by `cost` is `dJ = (1/m) * ((Xᵗ · D) + mask * W)` — the
regularization term is divided by `m` together with the data term — where
`D = predict(X, W) - Y` and `mask` is the regularization mask; `dJ` has the
same shape as `W` (its type is that of `Weights`). -/
theorem C1_gradient_formula {m n k : ℕ} (Weights : Matrix (Fin n) (Fin k) ℝ)
    (X : Matrix (Fin m) (Fin n) ℝ) (Y : Matrix (Fin m) (Fin k) ℝ)
    (lambda : ℝ) :
    (cost Weights X Y lambda).2 = Matrix.of fun i j =>
      ((∑ l : Fin m, X l i * (predict X Weights l j - Y l j))
        + lambdat n k lambda i j * Weights i j) / (m : ℝ) := by
  ext i j
  exact dJ_apply Weights X Y lambda i j

/-- Concrete feature matrix for the C1 counterexample: the 2×2 zero matrix. -/
def cexX : Matrix (Fin 2) (Fin 2) ℝ := 0

/-- Concrete label matrix for the C1 counterexample: the 2×1 zero matrix. -/
def cexY : Matrix (Fin 2) (Fin 1) ℝ := 0

/-- Concrete weight matrix for the C1 counterexample: rows `0` and `1`. -/
def cexW : Matrix (Fin 2) (Fin 1) ℝ := Matrix.of ![![0], ![1]]

/-- C1 (counterexample): at `m = 2`, `X = 0`, `Y = 0`, `W = (0, 1)ᵗ`,
`lambda = 1`, the gradient entry at row 1 returned by `cost` is `1/2`
(the source divides the regularization term by `m`), while the formula of
the claim, `dJ = (1/m) * (Xᵗ · D) + mask * W`, gives `1` there. -/
theorem C1_counterexample :
    (cost cexW cexX cexY 1).2 1 0 ≠ spec_dJ cexW cexX cexY 1 1 0 := by
  have h1 : (cost cexW cexX cexY 1).2 1 0 = 1 / 2 := by
    rw [dJ_apply]
    simp [cexW, cexX, lambdat, Fin.sum_univ_two]
  have h2 : spec_dJ cexW cexX cexY 1 1 0 = 1 := by
    simp [spec_dJ, cexW, cexX, lambdat, Matrix.mul_apply, Fin.sum_univ_two]
  rw [h1, h2]
  norm_num

/-- C2: for every well-shaped input and every lambda, `cost` returns the
scalar loss
`J = -(1/m) * Σ (Y log H + (1-Y) log (1-H)) + (0.5/m) * Σ (mask * W * W)`,
with `H = predict(X, W)` and the mask equal to lambda everywhere except
row 0, which is zeroed. -/
theorem C2_loss_formula {m n k : ℕ} (Weights : Matrix (Fin n) (Fin k) ℝ)
    (X : Matrix (Fin m) (Fin n) ℝ) (Y : Matrix (Fin m) (Fin k) ℝ)
    (lambda : ℝ) :
    (cost Weights X Y lambda).1 =
      -(1 / (m : ℝ)) * (∑ i : Fin m, ∑ j : Fin k,
          (Y i j * Real.log (predict X Weights i j)
            + (1 - Y i j) * Real.log (1 - predict X Weights i j)))
        + 0.5 / (m : ℝ) * (∑ i : Fin n, ∑ j : Fin k,
            (if (i : ℕ) = 0 then 0 else lambda) * Weights i j * Weights i j) := by
  rw [J_eq]
  simp only [lambdat, Matrix.of_apply]
  ring

/-- C4: the regularization mask equals lambda everywhere except row 0,
where it is 0, and consequently every gradient entry of the bias row
(row 0) returned by `cost` is the pure data term `(1/m) * (Xᵗ · D)`. -/
theorem C4_bias_row_unregularized {m n k : ℕ}
    (Weights : Matrix (Fin n) (Fin k) ℝ) (X : Matrix (Fin m) (Fin n) ℝ)
    (Y : Matrix (Fin m) (Fin k) ℝ) (lambda : ℝ)
    (i : Fin n) (j : Fin k) (i2 : Fin n) (j2 : Fin k)
    (hi : (i : ℕ) = 0) (hi2 : (i2 : ℕ) ≠ 0) :
    lambdat n k lambda i j = 0 ∧ lambdat n k lambda i2 j2 = lambda ∧
      (cost Weights X Y lambda).2 i j =
        (∑ l : Fin m, X l i * (predict X Weights l j - Y l j)) / (m : ℝ) := by
  refine ⟨by simp [lambdat, hi], by simp [lambdat, hi2], ?_⟩
  rw [dJ_apply]
  simp [lambdat, hi]

/-- Features for the C4 witness: the 1×2 zero matrix. -/
def w4X : Matrix (Fin 1) (Fin 2) ℝ := 0

/-- Labels for the C4 witness: the 1×1 zero matrix. -/
def w4Y : Matrix (Fin 1) (Fin 1) ℝ := 0

/-- Weights for the C4 witness: the 2×1 zero matrix. -/
def w4W : Matrix (Fin 2) (Fin 1) ℝ := 0

/-- C4 witness: the bias-row property instantiated at a concrete input
(`m = 1`, `n = 2`, `k = 1`, `lambda = 5`, rows 0 and 1). -/
theorem C4_witness :
    ((0 : Fin 2) : ℕ) = 0 ∧ ((1 : Fin 2) : ℕ) ≠ 0 ∧
      (lambdat 2 1 (5 : ℝ) 0 0 = 0 ∧ lambdat 2 1 (5 : ℝ) 1 0 = 5 ∧
        (cost w4W w4X w4Y 5).2 0 0 =
          (∑ l : Fin 1, w4X l 0 * (predict w4X w4W l 0 - w4Y l 0)) / ((1 : ℕ) : ℝ)) :=
  ⟨rfl, by decide, C4_bias_row_unregularized w4W w4X w4Y 5 0 0 1 0 rfl (by decide)⟩

/-- C5: for `lambda = 0` the regularization mask is the all-zero matrix,
and the gradient returned by `cost` is exactly the pure data term
`(1/m) * (Xᵗ · D)` at every entry. -/
theorem C5_zero_lambda {m n k : ℕ} (Weights : Matrix (Fin n) (Fin k) ℝ)
    (X : Matrix (Fin m) (Fin n) ℝ) (Y : Matrix (Fin m) (Fin k) ℝ) :
    lambdat n k (0 : ℝ) = 0 ∧
      (cost Weights X Y 0).2 = Matrix.of fun i j =>
        (∑ l : Fin m, X l i * (predict X Weights l j - Y l j)) / (m : ℝ) := by
  constructor
  · ext i j
    simp [lambdat]
  · ext i j
    rw [dJ_apply]
    simp [lambdat]

/-- C6: `predict X W` at entry `(i, j)` is the sigmoid of the matrix
product entry `Σ l, X i l * W l j`, and every entry lies in `[0, 1]`; the
output shape `(X.rows × W.cols)` is the type of the result. -/
theorem C6_predict_range {m n k : ℕ} (X : Matrix (Fin m) (Fin n) ℝ)
    (Weights : Matrix (Fin n) (Fin k) ℝ) (i : Fin m) (j : Fin k) :
    predict X Weights i j = sigmoid (∑ l : Fin n, X i l * Weights l j) ∧
      0 ≤ predict X Weights i j ∧ predict X Weights i j ≤ 1 := by
  have hp : predict X Weights i j = sigmoid (∑ l : Fin n, X i l * Weights l j) := by
    simp [predict, Matrix.map_apply, Matrix.mul_apply]
  refine ⟨hp, ?_, ?_⟩
  · rw [hp]
    unfold sigmoid
    positivity
  · rw [hp]
    unfold sigmoid
    rw [div_le_one (by positivity)]
    have := Real.exp_pos (-(∑ l : Fin n, X i l * Weights l j))
    linarith

/-- C7: `sigmoid 0` is exactly `1/2`, and sigmoid is strictly monotone:
`z1 < z2` implies `sigmoid z1 < sigmoid z2`. -/
theorem C7_sigmoid_props (z1 z2 : ℝ) (h : z1 < z2) :
    sigmoid 0 = 1 / 2 ∧ sigmoid z1 < sigmoid z2 := by
  constructor
  · unfold sigmoid
    rw [neg_zero, Real.exp_zero]
    norm_num
  · unfold sigmoid
    rw [div_lt_div_iff₀ (by positivity) (by positivity)]
    have h2 : Real.exp (-z2) < Real.exp (-z1) := Real.exp_lt_exp.2 (by linarith)
    linarith

/-- C7 witness: the monotonicity applied at `0 < 1`, together with the
exact value at zero. -/
theorem C7_witness : (0 : ℝ) < 1 ∧ (sigmoid 0 = 1 / 2 ∧ sigmoid 0 < sigmoid 1) :=
  ⟨by norm_num, C7_sigmoid_props 0 1 (by norm_num)⟩

/-- Shared lemma: the weights computed by the source training loop agree
with the spec-worded recursion, for every fuel and every start matrix. -/
theorem trainLoop_fst {m n k : ℕ} (X : Matrix (Fin m) (Fin n) ℝ)
    (Y : Matrix (Fin m) (Fin k) ℝ) (alpha lambda : ℝ) (t : ℕ) :
    ∀ W : Matrix (Fin n) (Fin k) ℝ,
      (trainLoop X Y alpha lambda t W).1 = spec_trainAux X Y alpha lambda t W := by
  induction t with
  | zero =>
    intro W
    rfl
  | succ t ih =>
    intro W
    simp only [trainLoop, spec_trainAux]
    split_ifs with h
    · rfl
    · exact ih _

/-- C3: `train` is the spec-worded trainer: it starts from the all-zero
weight matrix of shape `(X.cols × Y.cols)`, runs at most `max_iter`
iterations, each of which first evaluates `cost`, stops before any update
when `J < 0.1`, and otherwise updates `W` to `W - alpha * dJ`; the weights
current when the loop ends are returned. -/
theorem C3_train_refines_spec {m n k : ℕ} (X : Matrix (Fin m) (Fin n) ℝ)
    (Y : Matrix (Fin m) (Fin k) ℝ) (alpha lambda : ℝ) (maxiter : ℤ) :
    train X Y alpha lambda maxiter = spec_train X Y alpha lambda maxiter := by
  unfold train spec_train
  exact trainLoop_fst X Y alpha lambda maxiter.toNat _

/-- C9: when `maxiter ≤ 0` the training loop body never runs: `train`
returns the all-zero weight matrix of shape `(X.cols × Y.cols)` and `cost`
is never evaluated. -/
theorem C9_nonpositive_maxiter {m n k : ℕ} (X : Matrix (Fin m) (Fin n) ℝ)
    (Y : Matrix (Fin m) (Fin k) ℝ) (alpha lambda : ℝ) (maxiter : ℤ)
    (h : maxiter ≤ 0) :
    train X Y alpha lambda maxiter = 0 ∧ trainEvals X Y alpha lambda maxiter = 0 := by
  unfold train trainEvals
  rw [Int.toNat_of_nonpos h]
  exact ⟨rfl, rfl⟩

/-- Features for the C9 witness: the 1×1 zero matrix. -/
def w9X : Matrix (Fin 1) (Fin 1) ℝ := 0

/-- Labels for the C9 witness: the 1×1 zero matrix. -/
def w9Y : Matrix (Fin 1) (Fin 1) ℝ := 0

/-- C9 witness: `train` at `maxiter = -1` on concrete 1×1 inputs returns
the zero matrix with zero cost evaluations. -/
theorem C9_witness :
    (-1 : ℤ) ≤ 0 ∧
      (train w9X w9Y 1 1 (-1) = 0 ∧ trainEvals w9X w9Y 1 1 (-1) = 0) :=
  ⟨by decide, C9_nonpositive_maxiter w9X w9Y 1 1 (-1) (by decide)⟩

/-- C8: `accuracy` returns `100 * matches / num_rows`, where `matches`
counts the rows whose argmax index in `predicted` equals the argmax index
in `target`; and on identical matrices it returns exactly 100. -/
theorem C8_accuracy_formula {m k : ℕ}
    (predicted target : Matrix (Fin (m + 1)) (Fin (k + 1)) ℝ) :
    accuracy predicted target
        = 100 * (matchCount predicted target : ℝ) / ((m + 1 : ℕ) : ℝ) ∧
      (predicted = target → accuracy predicted target = 100) := by
  constructor
  · rfl
  · rintro rfl
    unfold accuracy matchCount
    have hcard :
        (Finset.univ.filter fun i =>
          labels predicted i = labels predicted i).card = m + 1 := by
      simp
    rw [hcard]
    have hm : ((m + 1 : ℕ) : ℝ) ≠ 0 := Nat.cast_ne_zero.2 (Nat.succ_ne_zero m)
    rw [mul_div_assoc, div_self hm, mul_one]

/-- The 1×1 one-hot matrix used by the C8 witness. -/
def w8 : Matrix (Fin 1) (Fin 1) ℝ := Matrix.of ![![1]]

/-- C8 witness: identical one-hot 1×1 matrices give accuracy exactly 100. -/
theorem C8_witness : @accuracy 0 0 w8 w8 = 100 :=
  (@C8_accuracy_formula 0 0 w8 w8).2 rfl

/-- C10: for every pair of equal-shaped non-empty matrices, the value
returned by `accuracy` lies in the closed interval `[0, 100]`. -/
theorem C10_accuracy_bounds {m k : ℕ}
    (predicted target : Matrix (Fin (m + 1)) (Fin (k + 1)) ℝ) :
    0 ≤ accuracy predicted target ∧ accuracy predicted target ≤ 100 := by
  have hcard : matchCount predicted target ≤ m + 1 := by
    unfold matchCount
    simpa using
      Finset.card_filter_le Finset.univ fun i => labels predicted i = labels target i
  constructor
  · unfold accuracy
    positivity
  · unfold accuracy
    rw [div_le_iff₀ (by positivity)]
    have hc : (matchCount predicted target : ℝ) ≤ ((m + 1 : ℕ) : ℝ) := by
      exact_mod_cast hcard
    linarith

end LogReg
